import Mathlib

/-!
Verification development for the AWE_Polar physiological-monitoring core.

Shallow embedding of:
  * `NuanicMonitor.parse_stress_packet`  (src/awe_polar/nuanic_ring/monitor.py)
  * `NuanicEDAAnalyzer`                  (src/awe_polar/nuanic_ring/eda_analyzer.py)
  * `StressEngine`                       (src/game_bridge/stress_engine.py)

Modelling conventions:
  * Python floats are modelled as `ℚ` (all constants in the code are decimal
    literals, and every claim is about exact comparisons at moderate magnitudes).
  * Byte strings are `List ℕ`; indexing `data[i]` under a length guard becomes
    `List.getD i 0`; the `.hex()` rendering (an injective encoding of the byte
    string) is modelled by the byte list itself.
  * `datetime.now()` / `time()` reads of the wall clock are modelled by an
    explicit `now` argument threaded into the function.
  * Python `None` results become `Option.none`.
-/

namespace AwePolar

/-! ### Decoder: `NuanicMonitor.parse_stress_packet` -/

/-- The dict returned by `parse_stress_packet`:
`{'timestamp', 'stress_raw', 'stress_percent', 'eda_raw', 'full_data'}`. -/
structure ParsedPacket where
  timestamp : ℚ
  stress_raw : ℕ
  stress_percent : ℚ
  eda_raw : List ℕ
  full_data : List ℕ
deriving DecidableEq

/-- Embedding of `NuanicMonitor.parse_stress_packet(data)`.  `now` models the
`datetime.now()` read; `data[15:]` is `List.drop 15`. -/
def parse_stress_packet (now : ℚ) (data : List ℕ) : Option ParsedPacket :=
  if data.length < 15 then
    none
  else
    let stress_raw := data.getD 14 0
    let stress_percent := ((stress_raw : ℚ) / 255) * 100
    let eda_raw := if 15 < data.length then data.drop 15 else []
    some { timestamp := now, stress_raw := stress_raw, stress_percent := stress_percent,
           eda_raw := eda_raw, full_data := data }

/-- The `PhysioReading` content of a parse result: every field except the
wall-clock `timestamp`. -/
def physioPart (r : ParsedPacket) : ℕ × ℚ × List ℕ × List ℕ :=
  (r.stress_raw, r.stress_percent, r.eda_raw, r.full_data)

/-! ### Baseline tracker: `NuanicEDAAnalyzer`

The class fields `peaks` (never read or written by any method) and
`last_update` (set to the wall clock by `add_reading`, never read) are omitted
from the state; `baseline` and `eda_history` are the fields the claims are
about. -/

/-- Constant `NuanicEDAAnalyzer.MIN_PEAK_HEIGHT = 0.1`. -/
def MIN_PEAK_HEIGHT : ℚ := 1 / 10

/-- The mutable state of one `NuanicEDAAnalyzer`. -/
structure NuanicEDAAnalyzer where
  baseline : Option ℚ
  eda_history : List ℚ
deriving DecidableEq

/-- Embedding of `NuanicEDAAnalyzer.__init__`: `baseline = None`, `eda_history = []`. -/
def initAnalyzer : NuanicEDAAnalyzer :=
  { baseline := none, eda_history := [] }

/-- Embedding of `NuanicEDAAnalyzer.update_baseline(eda_value)` with `alpha = 0.02`. -/
def update_baseline (a : NuanicEDAAnalyzer) (eda_value : ℚ) : NuanicEDAAnalyzer :=
  match a.baseline with
  | none => { a with baseline := some eda_value }
  | some b =>
      let alpha : ℚ := 2 / 100
      { a with baseline := some (alpha * eda_value + (1 - alpha) * b) }

/-- Embedding of `NuanicEDAAnalyzer.detect_peak(eda_value)`.  `eda_history[-1]` is
`List.getLast?`; the `if self.eda_history else 0` guard is the `none` arm. -/
def detect_peak (a : NuanicEDAAnalyzer) (eda_value : ℚ) : Bool :=
  match a.baseline with
  | none => false
  | some b =>
      if a.eda_history.length < 2 then false
      else
        let current_rise := eda_value - b
        let recent_rise :=
          match a.eda_history.getLast? with
          | some last => last - b
          | none => 0
        decide (MIN_PEAK_HEIGHT < current_rise ∧ recent_rise * (8 / 10) ≤ current_rise)

/-- Python `min` over a nonempty list (the call sites below only reach it with
a nonempty `eda_history`). -/
def listMin : List ℚ → ℚ
  | [] => 0
  | x :: xs => xs.foldl min x

/-- Python `max` over a nonempty list. -/
def listMax : List ℚ → ℚ
  | [] => 0
  | x :: xs => xs.foldl max x

/-- The stats dict returned by `add_reading` (the `tonic` entry duplicates
`baseline` in the source). -/
structure ChannelStats where
  current_value : ℚ
  baseline : ℚ
  tonic : ℚ
  phasic : ℚ
  is_peak : Bool
  history_length : ℕ
  min_recent : ℚ
  max_recent : ℚ
  avg_recent : ℚ
deriving DecidableEq

/-- Embedding of `NuanicEDAAnalyzer.add_reading(eda_raw_value)`: append to history, trim to
60 (`pop(0)` is `List.tail`), update the baseline, then call `detect_peak` on
the updated state (exactly the source's order of operations), and assemble the
stats dict.  `eda_history[-10:]` is the last-ten suffix. -/
def add_reading (a : NuanicEDAAnalyzer) (eda_raw_value : ℚ) :
    NuanicEDAAnalyzer × ChannelStats :=
  let h1 := a.eda_history ++ [eda_raw_value]
  let h2 := if 60 < h1.length then h1.tail else h1
  let a1 : NuanicEDAAnalyzer := { a with eda_history := h2 }
  let a2 := update_baseline a1 eda_raw_value
  let is_peak := detect_peak a2 eda_raw_value
  let b := a2.baseline.getD 0
  let recent := h2.drop (h2.length - 10)
  let stats : ChannelStats :=
    { current_value := eda_raw_value
      baseline := b
      tonic := b
      phasic := eda_raw_value - b
      is_peak := is_peak
      history_length := h2.length
      min_recent := if 10 ≤ h2.length then listMin recent else listMin h2
      max_recent := if 10 ≤ h2.length then listMax recent else listMax h2
      avg_recent := recent.sum / (min 10 h2.length : ℕ) }
  (a2, stats)

/-- Feed a list of readings through `add_reading`, keeping the final state. -/
def feedReadings (a : NuanicEDAAnalyzer) (vs : List ℚ) : NuanicEDAAnalyzer :=
  vs.foldl (fun s v => (add_reading s v).1) a

/-- The peak flag as the spec words it (for comparison with the code):
`is_peak = (phasic > MIN_PEAK_HEIGHT) AND (phasic ≥ previous_phasic * 0.8)`,
where `phasic = value - baseline` and `previous_phasic` is the second-to-last
history entry minus the pre-update baseline. -/
def specPeakFlag (value baseline_post prev_entry baseline_pre : ℚ) : Bool :=
  decide (MIN_PEAK_HEIGHT < value - baseline_post ∧
          (prev_entry - baseline_pre) * (8 / 10) ≤ value - baseline_post)

/-! ### Session analysis: `NuanicEDAAnalyzer.analyze_session` -/

/-- Comparison `val > mean_val + std_dev` of the source, where `std_dev = variance ** 0.5`, expressed in
`ℚ` without the square root (equivalence over `ℝ` is proved in
`gtMeanPlusStd_iff` below). -/
def gtMeanPlusStd (val mean_val variance : ℚ) : Bool :=
  decide (0 < val - mean_val ∧ variance < (val - mean_val) ^ 2)

/-- The peak-counting loop of `analyze_session`: fold state is
`(peak_count, prev_was_peak)`; `std_dev` is recomputed inside the loop exactly
as in the source (it does not depend on the loop variable). -/
def sessionPeakFold (values : List ℚ) (mean_val : ℚ) : ℕ × Bool :=
  values.foldl
    (fun acc val =>
      let variance := (values.map (fun v => (v - mean_val) ^ 2)).sum / (values.length : ℚ)
      if gtMeanPlusStd val mean_val variance ∧ !acc.2 then (acc.1 + 1, true)
      else if !gtMeanPlusStd val mean_val variance then (acc.1, false)
      else acc)
    (0, false)

/-- The dict returned by `analyze_session`. -/
structure SessionStats where
  duration_seconds : ℚ
  reading_count : ℕ
  min_value : ℚ
  max_value : ℚ
  mean_value : ℚ
  range : ℚ
  peak_count : ℕ
  peaks_per_minute : ℚ
deriving DecidableEq

/-- Embedding of `NuanicEDAAnalyzer.analyze_session(readings)`: readings are
`(timestamp, eda_value)` pairs, timestamps in seconds (`total_seconds` of the
datetime difference). -/
def analyze_session (readings : List (ℚ × ℚ)) : Option SessionStats :=
  match readings with
  | [] => none
  | r :: rs =>
      let values := (r :: rs).map Prod.snd
      let min_val := listMin values
      let max_val := listMax values
      let mean_val := values.sum / (values.length : ℚ)
      let peak_count := (sessionPeakFold values mean_val).1
      let duration := ((r :: rs).getLast (List.cons_ne_nil r rs)).1 - r.1
      some
        { duration_seconds := duration
          reading_count := (r :: rs).length
          min_value := min_val
          max_value := max_val
          mean_value := mean_val
          range := max_val - min_val
          peak_count := peak_count
          peaks_per_minute :=
            if 0 < duration then ((peak_count : ℚ) / duration) * 60 else 0 }

/-! ### State engine: `StressEngine` (src/game_bridge/stress_engine.py) -/

/-- The `StressState` enumeration. -/
inductive StressState where
  | NEUTRAL
  | STRESS
  | NO_STRESS
deriving DecidableEq

/-- Embedding of `UATRConfig` with the source's default values. -/
structure UATRConfig where
  evidence_weight : ℚ := 7 / 10
  decay : ℚ := 9 / 10
  threshold_high : ℚ := 7 / 10
  threshold_low : ℚ := 3 / 10
  min_state_seconds : ℚ := 10
  change_cost : ℚ := 1 / 10
deriving DecidableEq

/-- Embedding of `StressSignal`; `timestamp = None` means "use the current time". -/
structure StressSignal where
  score : ℚ
  confidence : ℚ
  timestamp : Option ℚ := none
deriving DecidableEq

/-- Embedding of `StressSignal.resolved_time`; `now` models the `time()` call. -/
def StressSignal.resolved_time (s : StressSignal) (now : ℚ) : ℚ :=
  match s.timestamp with
  | some t => t
  | none => now

/-- The `StressEngine` instance state (`_state`, `_score`, `_last_change`). -/
structure StressEngine where
  config : UATRConfig
  state : StressState
  score : ℚ
  lastChange : ℚ
deriving DecidableEq

/-- Embedding of `StressEngine.__init__(config)`. -/
def mkStressEngine (config : UATRConfig) : StressEngine :=
  { config := config, state := .NEUTRAL, score := 1 / 2, lastChange := 0 }

/-- Embedding of `StressEngine._decide_state(score)`. -/
def decideState (cfg : UATRConfig) (score : ℚ) : StressState :=
  if cfg.threshold_high ≤ score then .STRESS
  else if score ≤ cfg.threshold_low then .NO_STRESS
  else .NEUTRAL

/-- The smoothed score computed at the top of `update`:
`decay * score + (1 - decay) * (evidence_weight * signal.score)`. -/
def smoothedScore (e : StressEngine) (sigScore : ℚ) : ℚ :=
  e.config.decay * e.score + (1 - e.config.decay) * (e.config.evidence_weight * sigScore)

/-- Embedding of `StressEngine.update(signal)`: returns the new engine state and the
returned `StressState`.  `now` models the wall clock for an absent
`signal.timestamp`. -/
def StressEngine.update (e : StressEngine) (signal : StressSignal) (now : ℚ) :
    StressEngine × StressState :=
  let ts := signal.resolved_time now
  let score1 := smoothedScore e signal.score
  let e1 : StressEngine := { e with score := score1 }
  if ts - e.lastChange < e.config.min_state_seconds then
    (e1, e1.state)
  else
    let next := decideState e.config score1
    if next ≠ e1.state then
      if e.config.change_cost ≤ |score1 - 1 / 2| then
        ({ e1 with state := next, lastChange := ts }, next)
      else (e1, e1.state)
    else (e1, e1.state)

/-- Run the engine over a list of `(now, signal)` pairs (the wall-clock value
at each call paired with the signal). -/
def runEngine (e : StressEngine) (l : List (ℚ × StressSignal)) : StressEngine :=
  l.foldl (fun s p => (s.update p.2 p.1).1) e

/-- Count how many of the updates in `l` change the discrete state. -/
def countChanges (e : StressEngine) : List (ℚ × StressSignal) → ℕ
  | [] => 0
  | p :: rest =>
      let e1 := (e.update p.2 p.1).1
      (if e1.state = e.state then 0 else 1) + countChanges e1 rest

/-! ### Concrete inputs used by counterexamples and witnesses -/

/-- An engine built with the default configuration. -/
def engineDefault : StressEngine := mkStressEngine {}

/-- Configuration for the dwell-guard counterexample: the smoother is turned
off (`decay = 0`, `evidence_weight = 1`) so the smoothed score equals the
incoming score, with the spec's thresholds, dwell time and change cost. -/
def cfg3 : UATRConfig :=
  { evidence_weight := 1, decay := 0, threshold_high := 7 / 10, threshold_low := 3 / 10,
    min_state_seconds := 10, change_cost := 1 / 10 }

/-- Three signals whose scores oscillate narrowly around `threshold_high = 0.7`
(0.71, 0.69, 0.69) with consecutive timestamps 100, 105, 110 — each gap is 5
seconds, less than `min_state_seconds = 10`. -/
def sigs3 : List (ℚ × StressSignal) :=
  [(100, { score := 71 / 100, confidence := 1, timestamp := some 100 }),
   (105, { score := 69 / 100, confidence := 1, timestamp := some 105 }),
   (110, { score := 69 / 100, confidence := 1, timestamp := some 110 })]

/-- Twenty readings of 100.0 followed by a spike of 150.0; after feeding these
the analyzer's baseline is exactly 101. -/
def c2Feed : List ℚ := List.replicate 20 100 ++ [150]

end AwePolar

namespace AwePolar

/-! ## Theorems -/

/-- Claim C6: `parse_stress_packet` returns `None` (the `TooShort` outcome)
exactly when the packet has fewer than 15 bytes, and on any packet of at least
15 bytes it succeeds with `stress_raw = data[14]`. -/
theorem decoder_too_short_iff (now : ℚ) (data : List ℕ) :
    (parse_stress_packet now data = none ↔ data.length < 15) ∧
    (15 ≤ data.length →
      ∃ r, parse_stress_packet now data = some r ∧ r.stress_raw = data.getD 14 0) := by
  constructor
  · by_cases h : data.length < 15 <;> simp [parse_stress_packet, h]
  · intro h
    simp [parse_stress_packet, Nat.not_lt.2 h]

/-- Witness for C6 at the concrete 15-byte packet `[7, 7, …, 7]`. -/
theorem decoder_too_short_iff_witness :
    15 ≤ (List.replicate 15 (7 : ℕ)).length ∧
    ∃ r, parse_stress_packet 0 (List.replicate 15 7) = some r ∧
      r.stress_raw = (List.replicate 15 (7 : ℕ)).getD 14 0 :=
  ⟨by simp, (decoder_too_short_iff 0 (List.replicate 15 7)).2 (by simp)⟩

/-- Claim C5: the decoder is deterministic — for any byte sequence (of any
length, including 0) the decoded `PhysioReading` content (`stress_raw`,
`stress_percent`, `eda_raw`, `full_data`) is a pure function of the bytes,
independent of the wall-clock value read for the `timestamp` field. -/
theorem decoder_deterministic (data : List ℕ) (now1 now2 : ℚ) :
    (parse_stress_packet now1 data).map physioPart =
      (parse_stress_packet now2 data).map physioPart := by
  by_cases h : data.length < 15 <;> simp [parse_stress_packet, h, physioPart]

/-- Claim C1 is false as stated: on a 16-byte packet (15 ≤ 16 < 92) the
decoder returns a one-byte EDA block `[0]`, not an empty one, and on a 93-byte
packet it returns a 78-byte EDA block, not exactly 77 bytes — `data[15:]`
takes every byte past offset 14 with no upper bound. -/
theorem decoder_eda_not_truncated :
    ((parse_stress_packet 0 (List.replicate 16 0)).map (fun r => r.eda_raw) = some [0] ∧
      [0] ≠ ([] : List ℕ)) ∧
    (parse_stress_packet 0 (List.replicate 93 0)).map (fun r => r.eda_raw.length) = some 78 := by
  refine ⟨⟨?_, by simp⟩, ?_⟩ <;> simp [parse_stress_packet]

/-- Claim C1 (amended): for every packet of at least 15 bytes, decoding
succeeds with `stress_raw = data[14]` and `eda_block = data[15:]` — all bytes
from offset 15 to the end.  The block is empty exactly for a 15-byte packet,
and is exactly 77 bytes exactly for a 92-byte packet (so the original claim
holds at the boundary lengths 15 and 92, but not on the open ranges). -/
theorem decoder_eda_suffix (now : ℚ) (data : List ℕ) (h : 15 ≤ data.length) :
    ∃ r, parse_stress_packet now data = some r ∧
      r.stress_raw = data.getD 14 0 ∧
      r.eda_raw = data.drop 15 ∧
      (data.length = 15 → r.eda_raw = []) ∧
      (data.length = 92 → r.eda_raw.length = 77) := by
  have hp : parse_stress_packet now data =
      some { timestamp := now, stress_raw := data.getD 14 0,
             stress_percent := ((data.getD 14 0 : ℕ) : ℚ) / 255 * 100,
             eda_raw := if 15 < data.length then data.drop 15 else [],
             full_data := data } := by
    simp only [parse_stress_packet]
    rw [if_neg (Nat.not_lt.2 h)]
  have hdrop : (if 15 < data.length then data.drop 15 else []) = data.drop 15 := by
    by_cases hgt : 15 < data.length
    · rw [if_pos hgt]
    · have h15 : data.length = 15 := by omega
      rw [if_neg hgt]
      rw [show (15 : ℕ) = data.length from h15.symm, List.drop_length]
  refine ⟨_, hp, rfl, hdrop, fun h15 => ?_, fun h92 => ?_⟩
  · rw [hdrop]
    rw [show (15 : ℕ) = data.length from h15.symm, List.drop_length]
  · rw [hdrop, List.length_drop, h92]

/-- Witness for the amended C1 at a concrete 92-byte packet. -/
theorem decoder_eda_suffix_witness :
    15 ≤ (List.replicate 92 (3 : ℕ)).length ∧
    ∃ r, parse_stress_packet 0 (List.replicate 92 3) = some r ∧
      r.stress_raw = (List.replicate 92 (3 : ℕ)).getD 14 0 ∧
      r.eda_raw = (List.replicate 92 (3 : ℕ)).drop 15 ∧
      ((List.replicate 92 (3 : ℕ)).length = 15 → r.eda_raw = []) ∧
      ((List.replicate 92 (3 : ℕ)).length = 92 → r.eda_raw.length = 77) :=
  ⟨by simp, decoder_eda_suffix 0 (List.replicate 92 3) (by simp)⟩

/-! ### Engine helper lemmas -/

/-- An `update` never modifies the configuration. -/
theorem update_config (e : StressEngine) (s : StressSignal) (now : ℚ) :
    (e.update s now).1.config = e.config := by
  simp only [StressEngine.update]
  split
  · rfl
  · split
    · split
      · rfl
      · rfl
    · rfl

/-- When the dwell guard fires, the update only replaces the smoothed score. -/
theorem update_of_dwell (e : StressEngine) (s : StressSignal) (now : ℚ)
    (h : s.resolved_time now - e.lastChange < e.config.min_state_seconds) :
    e.update s now = ({ e with score := smoothedScore e s.score }, e.state) := by
  simp only [StressEngine.update]
  rw [if_pos h]

/-- If an update leaves the state fixed, it also leaves `lastChange` fixed. -/
theorem update_lastChange_of_state_eq (e : StressEngine) (s : StressSignal) (now : ℚ)
    (h : (e.update s now).1.state = e.state) :
    (e.update s now).1.lastChange = e.lastChange := by
  simp only [StressEngine.update] at h ⊢
  by_cases hd : s.resolved_time now - e.lastChange < e.config.min_state_seconds
  · rw [if_pos hd]
  · rw [if_neg hd] at h ⊢
    by_cases hne : decideState e.config (smoothedScore e s.score) ≠ e.state
    · rw [if_pos hne] at h ⊢
      by_cases hc : e.config.change_cost ≤ |smoothedScore e s.score - 1 / 2|
      · rw [if_pos hc] at h
        exact absurd h hne
      · rw [if_neg hc]
    · rw [if_neg hne]

/-- If an update changes the state, the dwell time had elapsed and `lastChange`
is set to the resolved timestamp. -/
theorem update_of_state_ne (e : StressEngine) (s : StressSignal) (now : ℚ)
    (h : (e.update s now).1.state ≠ e.state) :
    e.config.min_state_seconds ≤ s.resolved_time now - e.lastChange ∧
    (e.update s now).1.lastChange = s.resolved_time now := by
  simp only [StressEngine.update] at h ⊢
  by_cases hd : s.resolved_time now - e.lastChange < e.config.min_state_seconds
  · rw [if_pos hd] at h
    exact absurd rfl h
  · rw [if_neg hd] at h ⊢
    refine ⟨not_lt.1 hd, ?_⟩
    by_cases hne : decideState e.config (smoothedScore e s.score) ≠ e.state
    · rw [if_pos hne] at h ⊢
      by_cases hc : e.config.change_cost ≤ |smoothedScore e s.score - 1 / 2|
      · rw [if_pos hc]
      · rw [if_neg hc] at h
        exact absurd rfl h
    · rw [if_neg hne] at h
      exact absurd rfl h

/-- A run whose every resolved timestamp stays within the dwell window of the
starting state never changes the state. -/
theorem countChanges_eq_zero (l : List (ℚ × StressSignal)) :
    ∀ e : StressEngine,
      (∀ p ∈ l, (p.2).resolved_time p.1 - e.lastChange < e.config.min_state_seconds) →
      countChanges e l = 0 := by
  induction l with
  | nil => intro e _; rfl
  | cons p rest ih =>
      intro e h
      have hd := h p (List.mem_cons_self p rest)
      have hupd := update_of_dwell e p.2 p.1 hd
      simp only [countChanges, hupd, if_pos, Nat.zero_add]
      exact ih _ (fun q hq => h q (List.mem_cons_of_mem p hq))

/-- Claim C3 is false as stated: with the smoother disabled (`cfg3`), the
scores 0.71, 0.69, 0.69 oscillate within 0.02 of `threshold_high = 0.7`, the
consecutive timestamps 100, 105, 110 are spaced 5 seconds apart — less than
`min_state_seconds = 10` — yet the engine changes state twice (Neutral to
Stress at 100, Stress back to Neutral at 110, because 110 - 100 is already a
full dwell period even though no single gap is). -/
theorem dwell_spacing_counterexample :
    countChanges (mkStressEngine cfg3) sigs3 = 2 ∧
    ((105 : ℚ) - 100 < cfg3.min_state_seconds ∧ (110 : ℚ) - 105 < cfg3.min_state_seconds) ∧
    (|(71 : ℚ) / 100 - cfg3.threshold_high| ≤ 1 / 50 ∧
      |(69 : ℚ) / 100 - cfg3.threshold_high| ≤ 1 / 50) := by
  refine ⟨?_, by norm_num [cfg3], by norm_num [cfg3, abs_of_nonneg, abs_of_nonpos]⟩
  norm_num +decide [countChanges, StressEngine.update, smoothedScore, decideState,
    StressSignal.resolved_time, mkStressEngine, cfg3, sigs3, abs_of_nonneg, abs_of_nonpos]

/-- Claim C3 (amended): the dwell guard holds as stated — while
`ts - last_change_time < min_state_seconds` an update returns the current
state with state and `last_change_time` unchanged; consequently a run whose
resolved timestamps all lie inside one window of length `min_state_seconds`
changes state at most once.  (Timestamps merely spaced less than
`min_state_seconds` apart do not bound the number of changes once the total
span exceeds the dwell time.) -/
theorem dwell_guard_window :
    (∀ (e : StressEngine) (s : StressSignal) (now : ℚ),
        s.resolved_time now - e.lastChange < e.config.min_state_seconds →
        (e.update s now).1.state = e.state ∧
        (e.update s now).1.lastChange = e.lastChange ∧
        (e.update s now).2 = e.state) ∧
    (∀ (e : StressEngine) (l : List (ℚ × StressSignal)) (a : ℚ),
        (∀ p ∈ l, a ≤ (p.2).resolved_time p.1 ∧
          (p.2).resolved_time p.1 < a + e.config.min_state_seconds) →
        countChanges e l ≤ 1) := by
  constructor
  · intro e s now h
    rw [update_of_dwell e s now h]
    exact ⟨rfl, rfl, rfl⟩
  · intro e l
    induction l generalizing e with
    | nil => intro a _; simp [countChanges]
    | cons p rest ih =>
        intro a h
        have hcfg := update_config e p.2 p.1
        simp only [countChanges]
        by_cases hch : ((e.update p.2 p.1).1).state = e.state
        · rw [if_pos hch, Nat.zero_add]
          refine ih _ a (fun q hq => ?_)
          rw [hcfg]
          exact h q (List.mem_cons_of_mem p hq)
        · rw [if_neg hch]
          have hlc := (update_of_state_ne e p.2 p.1 hch).2
          have hzero : countChanges (e.update p.2 p.1).1 rest = 0 := by
            refine countChanges_eq_zero rest _ (fun q hq => ?_)
            rw [hlc, hcfg]
            have hq' := h q (List.mem_cons_of_mem p hq)
            have hp' := h p (List.mem_cons_self p rest)
            have := hq'.2
            have := hp'.1
            linarith
          omega

/-- Witness for the amended C3: a concrete dwell-guarded step (`engineDefault`
starts with `last_change = 0`, so a signal at time 3 is within the 10-second
dwell window), and a concrete two-signal run inside the window `[0, 10)`. -/
theorem dwell_guard_window_witness :
    ((⟨1, 1, some 3⟩ : StressSignal).resolved_time 0 - engineDefault.lastChange <
        engineDefault.config.min_state_seconds ∧
      (engineDefault.update ⟨1, 1, some 3⟩ 0).1.state = engineDefault.state ∧
      (engineDefault.update ⟨1, 1, some 3⟩ 0).1.lastChange = engineDefault.lastChange ∧
      (engineDefault.update ⟨1, 1, some 3⟩ 0).2 = engineDefault.state) ∧
    ((∀ p ∈ [((2 : ℚ), (⟨1, 1, some 2⟩ : StressSignal)), (9, ⟨0, 1, some 9⟩)],
        (0 : ℚ) ≤ (p.2).resolved_time p.1 ∧
        (p.2).resolved_time p.1 < 0 + engineDefault.config.min_state_seconds) ∧
      countChanges engineDefault [(2, ⟨1, 1, some 2⟩), (9, ⟨0, 1, some 9⟩)] ≤ 1) := by
  have h1 : (⟨1, 1, some 3⟩ : StressSignal).resolved_time 0 - engineDefault.lastChange <
      engineDefault.config.min_state_seconds := by
    norm_num [StressSignal.resolved_time, engineDefault, mkStressEngine]
  have h2 : ∀ p ∈ [((2 : ℚ), (⟨1, 1, some 2⟩ : StressSignal)), (9, ⟨0, 1, some 9⟩)],
      (0 : ℚ) ≤ (p.2).resolved_time p.1 ∧
      (p.2).resolved_time p.1 < 0 + engineDefault.config.min_state_seconds := by
    intro p hp
    rcases List.mem_cons.1 hp with rfl | hp'
    · norm_num [StressSignal.resolved_time, engineDefault, mkStressEngine]
    · rcases List.mem_cons.1 hp' with rfl | hp''
      · norm_num [StressSignal.resolved_time, engineDefault, mkStressEngine]
      · cases hp''
  exact ⟨⟨h1, dwell_guard_window.1 engineDefault ⟨1, 1, some 3⟩ 0 h1⟩,
         ⟨h2, dwell_guard_window.2 engineDefault _ 0 h2⟩⟩

/-- Claim C4: a transition to a candidate different from the current state is
applied only when `|score1 - 0.5| ≥ change_cost`; when applied, the state
becomes the candidate `decideState` value and `last_change_time` becomes the
resolved timestamp; and when `|score1 - 0.5| < change_cost` both the state and
`last_change_time` are left unchanged. -/
theorem change_cost_guard (e : StressEngine) (s : StressSignal) (now : ℚ) :
    ((e.update s now).1.state ≠ e.state →
      e.config.change_cost ≤ |smoothedScore e s.score - 1 / 2| ∧
      (e.update s now).1.state = decideState e.config (smoothedScore e s.score) ∧
      (e.update s now).1.lastChange = s.resolved_time now) ∧
    (|smoothedScore e s.score - 1 / 2| < e.config.change_cost →
      (e.update s now).1.state = e.state ∧
      (e.update s now).1.lastChange = e.lastChange) := by
  simp only [StressEngine.update]
  by_cases hd : s.resolved_time now - e.lastChange < e.config.min_state_seconds
  · rw [if_pos hd]
    exact ⟨fun h => absurd rfl h, fun _ => ⟨rfl, rfl⟩⟩
  · rw [if_neg hd]
    by_cases hne : decideState e.config (smoothedScore e s.score) ≠ e.state
    · rw [if_pos hne]
      by_cases hc : e.config.change_cost ≤ |smoothedScore e s.score - 1 / 2|
      · rw [if_pos hc]
        exact ⟨fun _ => ⟨hc, rfl, rfl⟩, fun hlt => absurd hc (not_le.2 hlt)⟩
      · rw [if_neg hc]
        exact ⟨fun h => absurd rfl h, fun _ => ⟨rfl, rfl⟩⟩
    · rw [if_neg hne]
      exact ⟨fun h => absurd rfl h, fun _ => ⟨rfl, rfl⟩⟩

/-- Witness for C4: with the default configuration, a signal of score 0.5 at
time 50 gives smoothed score 0.485, so `|0.485 - 0.5| = 0.015 < 0.1` and the
state and `last_change_time` stay unchanged. -/
theorem change_cost_guard_witness :
    |smoothedScore engineDefault (1 / 2) - 1 / 2| < engineDefault.config.change_cost ∧
    (engineDefault.update ⟨1 / 2, 1, some 50⟩ 0).1.state = engineDefault.state ∧
    (engineDefault.update ⟨1 / 2, 1, some 50⟩ 0).1.lastChange = engineDefault.lastChange := by
  have h : |smoothedScore engineDefault (1 / 2) - 1 / 2| <
      engineDefault.config.change_cost := by
    norm_num [smoothedScore, engineDefault, mkStressEngine, abs_of_nonneg, abs_of_nonpos]
  exact ⟨h, (change_cost_guard engineDefault ⟨1 / 2, 1, some 50⟩ 0).2 h⟩

/-! ### Analyzer helper lemmas -/

/-- The `update_baseline` step does not touch the history. -/
theorem update_baseline_history (a : NuanicEDAAnalyzer) (v : ℚ) :
    (update_baseline a v).eda_history = a.eda_history := by
  unfold update_baseline
  cases a.baseline <;> rfl

/-- One `add_reading` appends the value and trims the front at capacity 60. -/
theorem add_reading_history (a : NuanicEDAAnalyzer) (v : ℚ) :
    (add_reading a v).1.eda_history =
      if 60 < (a.eda_history ++ [v]).length then (a.eda_history ++ [v]).tail
      else a.eda_history ++ [v] := by
  simp only [add_reading]
  rw [update_baseline_history]

/-- An `add_reading` on an unset baseline initializes it to the sample. -/
theorem add_reading_baseline_none (a : NuanicEDAAnalyzer) (v : ℚ) (h : a.baseline = none) :
    (add_reading a v).1.baseline = some v := by
  simp only [add_reading, update_baseline, h]

/-- An `add_reading` on a set baseline applies the EMA step with `alpha = 0.02`. -/
theorem add_reading_baseline_some (a : NuanicEDAAnalyzer) (v b : ℚ) (h : a.baseline = some b) :
    (add_reading a v).1.baseline = some (2 / 100 * v + (1 - 2 / 100) * b) := by
  simp only [add_reading, update_baseline, h]

/-- Within capacity, the post-step history is a `drop` of the appended list
(the trim removes the oldest entry exactly when the buffer was full). -/
theorem add_reading_history_drop (a : NuanicEDAAnalyzer) (v : ℚ)
    (h : a.eda_history.length ≤ 60) :
    (add_reading a v).1.eda_history =
      (a.eda_history ++ [v]).drop ((a.eda_history.length + 1) - 60) := by
  rw [add_reading_history]
  rcases Nat.lt_or_ge a.eda_history.length 60 with hlt | hge
  · rw [if_neg (by simp only [List.length_append, List.length_cons, List.length_nil]; omega),
      show (a.eda_history.length + 1) - 60 = 0 by omega, List.drop_zero]
  · have h60 : a.eda_history.length = 60 := le_antisymm h hge
    rw [if_pos (by simp only [List.length_append, List.length_cons, List.length_nil]; omega),
      show (a.eda_history.length + 1) - 60 = 1 by omega, List.drop_one]

/-- Closed form of the history after a run, for a state within capacity:
the history is the length-capped suffix of old history plus fed values. -/
theorem feedReadings_history (vs : List ℚ) :
    ∀ a : NuanicEDAAnalyzer, a.eda_history.length ≤ 60 →
      (feedReadings a vs).eda_history =
        (a.eda_history ++ vs).drop ((a.eda_history.length + vs.length) - 60) := by
  induction vs with
  | nil =>
      intro a h
      simp [feedReadings, Nat.sub_eq_zero_of_le h]
  | cons v rest ih =>
      intro a h
      have hhist := add_reading_history_drop a v h
      have hle2 : (add_reading a v).1.eda_history.length ≤ 60 := by
        rw [hhist, List.length_drop]
        simp only [List.length_append, List.length_cons, List.length_nil]
        omega
      have hstep : feedReadings a (v :: rest) = feedReadings (add_reading a v).1 rest := rfl
      rw [hstep, ih _ hle2, hhist, List.length_drop]
      rw [← List.drop_append_of_le_length
        (by simp only [List.length_append, List.length_cons, List.length_nil]; omega)]
      rw [List.drop_drop, List.append_assoc]
      simp only [List.singleton_append, List.length_append, List.length_cons, List.length_nil]
      congr 1
      omega

/-- Feeding a constant value preserves an already-converged baseline. -/
theorem feedReadings_const_baseline (v : ℚ) (n : ℕ) :
    ∀ a : NuanicEDAAnalyzer, a.baseline = some v →
      (feedReadings a (List.replicate n v)).baseline = some v := by
  induction n with
  | zero => intro a h; exact h
  | succ m ih =>
      intro a h
      rw [List.replicate_succ]
      have hstep : feedReadings a (v :: List.replicate m v) =
          feedReadings (add_reading a v).1 (List.replicate m v) := rfl
      rw [hstep]
      refine ih _ ?_
      rw [add_reading_baseline_some a v v h]
      congr 1
      ring

/-- Claim C7: starting from a fresh tracker, after feeding any list of
readings the history is exactly the suffix of the fed values of length
`min (number fed) 60` — so its length never exceeds 60, the oldest entries
are the ones evicted, and after more than 60 readings it is always exactly
60. -/
theorem history_bound (vs : List ℚ) :
    (feedReadings initAnalyzer vs).eda_history = vs.drop (vs.length - 60) ∧
    (feedReadings initAnalyzer vs).eda_history.length = min vs.length 60 ∧
    (60 < vs.length → (feedReadings initAnalyzer vs).eda_history.length = 60) := by
  have h := feedReadings_history vs initAnalyzer (by simp [initAnalyzer])
  simp only [show initAnalyzer.eda_history = [] from rfl, List.nil_append,
    List.length_nil, Nat.zero_add] at h
  refine ⟨h, ?_, fun h60 => ?_⟩
  · rw [h, List.length_drop]
    omega
  · rw [h, List.length_drop]
    omega

/-- Witness for C7 at 61 concrete readings. -/
theorem history_bound_witness :
    60 < (List.replicate 61 (0 : ℚ)).length ∧
    (feedReadings initAnalyzer (List.replicate 61 0)).eda_history.length = 60 :=
  ⟨by simp, (history_bound (List.replicate 61 0)).2.2 (by simp)⟩

/-- Claim C8: the baseline is `None` on a fresh tracker, the first reading
initializes it to the sample, every further reading applies the EMA step
`baseline1 = 0.02 * v + 0.98 * baseline`, and feeding a constant `v` from a
fresh tracker pins the baseline at exactly `v` from the first reading on (the
strongest form of convergence to `v`). -/
theorem baseline_ema :
    initAnalyzer.baseline = none ∧
    (∀ v : ℚ, (add_reading initAnalyzer v).1.baseline = some v) ∧
    (∀ (a : NuanicEDAAnalyzer) (v b : ℚ), a.baseline = some b →
      (add_reading a v).1.baseline = some (2 / 100 * v + (1 - 2 / 100) * b)) ∧
    (∀ (v : ℚ) (n : ℕ), 1 ≤ n →
      (feedReadings initAnalyzer (List.replicate n v)).baseline = some v) := by
  refine ⟨rfl, fun v => add_reading_baseline_none _ _ rfl,
    fun a v b h => add_reading_baseline_some a v b h, fun v n hn => ?_⟩
  obtain ⟨m, rfl⟩ : ∃ m, n = m + 1 := ⟨n - 1, by omega⟩
  rw [List.replicate_succ]
  have hstep : feedReadings initAnalyzer (v :: List.replicate m v) =
      feedReadings (add_reading initAnalyzer v).1 (List.replicate m v) := rfl
  rw [hstep]
  exact feedReadings_const_baseline v m _ (add_reading_baseline_none _ _ rfl)

/-- Witness for C8: the EMA step at `baseline = 2`, sample `7`, and a
three-sample constant feed of `5`. -/
theorem baseline_ema_witness :
    (({ baseline := some 2, eda_history := [] } : NuanicEDAAnalyzer).baseline = some 2 ∧
      (add_reading { baseline := some 2, eda_history := [] } 7).1.baseline =
        some (2 / 100 * 7 + (1 - 2 / 100) * 2)) ∧
    (1 ≤ 3 ∧ (feedReadings initAnalyzer (List.replicate 3 5)).baseline = some 5) :=
  ⟨⟨rfl, baseline_ema.2.2.1 { baseline := some 2, eda_history := [] } 7 2 rfl⟩,
   ⟨by omega, baseline_ema.2.2.2 5 3 (by omega)⟩⟩

/-- Claim C2 fails on the code: after twenty readings of 100 and a spike of
150 the baseline is exactly 101; the follow-up reading 102 (one above that
baseline) reports `is_peak = true`, because `add_reading` appends the sample
and updates the baseline before calling `detect_peak`, so `eda_history[-1]`
is the new sample itself and the "increasing or plateau" comparison is made
against itself (vacuous).  The spec's formula — `previous_phasic` from the
second-to-last history entry (150) against the pre-update baseline (101) —
reports `false` on the same input, as the claim requires. -/
theorem detect_peak_followup_eval :
    (feedReadings initAnalyzer c2Feed).baseline = some 101 ∧
    (add_reading (feedReadings initAnalyzer c2Feed) 102).2.is_peak = true ∧
    specPeakFlag 102 (5051 / 50) 150 101 = false := by
  refine ⟨?_, ?_, by norm_num [specPeakFlag, MIN_PEAK_HEIGHT]⟩
  · norm_num [c2Feed, feedReadings, initAnalyzer, add_reading, update_baseline,
      detect_peak, MIN_PEAK_HEIGHT, List.replicate]
  · norm_num [c2Feed, feedReadings, initAnalyzer, add_reading, update_baseline,
      detect_peak, MIN_PEAK_HEIGHT, List.replicate, List.getLast?, List.getLast]

/-! ### Session analysis -/

/-- Faithfulness of the square-root-free embedding of the source comparison
`val > mean_val + std_dev` (with `std_dev = variance ** 0.5`): over the reals
the two agree for every nonnegative variance. -/
theorem gtMeanPlusStd_iff (val mean_val variance : ℚ) (h : 0 ≤ variance) :
    gtMeanPlusStd val mean_val variance = true ↔
      (mean_val : ℝ) + Real.sqrt (variance : ℚ) < (val : ℚ) := by
  unfold gtMeanPlusStd
  rw [decide_eq_true_eq]
  have hv : (0 : ℝ) ≤ (variance : ℝ) := by exact_mod_cast h
  constructor
  · rintro ⟨h1, h2⟩
    have h1' : (0 : ℝ) < (val : ℝ) - (mean_val : ℝ) := by exact_mod_cast h1
    have h2' : (variance : ℝ) < ((val : ℝ) - (mean_val : ℝ)) ^ 2 := by exact_mod_cast h2
    have := (Real.sqrt_lt' h1').2 h2'
    linarith
  · intro hlt
    have hs : Real.sqrt (variance : ℝ) < (val : ℝ) - (mean_val : ℝ) := by linarith
    have hpos : (0 : ℝ) < (val : ℝ) - (mean_val : ℝ) :=
      lt_of_le_of_lt (Real.sqrt_nonneg _) hs
    have hsq := (Real.sqrt_lt' hpos).1 hs
    constructor
    · exact_mod_cast hpos
    · have : (variance : ℝ) < (((val - mean_val : ℚ) : ℝ)) ^ 2 := by
        push_cast
        convert hsq using 2
      exact_mod_cast this

/-- Claim C9: `analyze_session` returns `None` on an empty readings list (an
explicit absence, never a zeroed stats object), and returns a stats object on
every non-empty list. -/
theorem analyze_session_empty_none :
    analyze_session [] = none ∧
    ∀ readings : List (ℚ × ℚ), readings ≠ [] →
      ∃ s, analyze_session readings = some s := by
  refine ⟨rfl, fun readings h => ?_⟩
  obtain ⟨r, rs, rfl⟩ := List.exists_cons_of_ne_nil h
  exact ⟨_, rfl⟩

/-- Witness for C9 at the concrete one-element session `[(0, 1)]`. -/
theorem analyze_session_empty_none_witness :
    ([((0 : ℚ), (1 : ℚ))] ≠ []) ∧ ∃ s, analyze_session [(0, 1)] = some s :=
  ⟨List.cons_ne_nil _ _, analyze_session_empty_none.2 [(0, 1)] (List.cons_ne_nil _ _)⟩

/-- Claim C10: on a non-empty session whose first and last timestamps
coincide (duration 0), `analyze_session` still returns a stats object, with
`peaks_per_minute = 0` — the division is guarded by `duration > 0`. -/
theorem analyze_session_zero_duration (readings : List (ℚ × ℚ)) (h : readings ≠ [])
    (hts : (readings.head h).1 = (readings.getLast h).1) :
    ∃ s, analyze_session readings = some s ∧ s.peaks_per_minute = 0 := by
  obtain ⟨r, rs, rfl⟩ := List.exists_cons_of_ne_nil h
  have hts' : r.1 = ((r :: rs).getLast (List.cons_ne_nil r rs)).1 := hts
  refine ⟨_, rfl, ?_⟩
  have hd : ((r :: rs).getLast (List.cons_ne_nil r rs)).1 - r.1 = 0 := by
    rw [← hts']
    ring
  simp only [analyze_session, hd]
  rw [if_neg (lt_irrefl 0)]

/-- Witness for C10 at the concrete single-reading session `[(5, 42)]`. -/
theorem analyze_session_zero_duration_witness :
    ([((5 : ℚ), (42 : ℚ))] ≠ []) ∧
    (([((5 : ℚ), (42 : ℚ))].head (List.cons_ne_nil _ _)).1 =
      ([((5 : ℚ), (42 : ℚ))].getLast (List.cons_ne_nil _ _)).1) ∧
    ∃ s, analyze_session [(5, 42)] = some s ∧ s.peaks_per_minute = 0 :=
  ⟨List.cons_ne_nil _ _, rfl,
   analyze_session_zero_duration [(5, 42)] (List.cons_ne_nil _ _) rfl⟩

end AwePolar

